import Mathlib

/-!
Shallow embedding of the gas_consumption repository's reading-normalizer
pipeline (src/data/data_preprocessing.py) together with the seasonal
feature helpers (src/old/download_normalize.py, src/src/data_processing/cleaner.py).

Strings are modelled as `List Char`.  Python `None` is modelled by `Option`.
Python `float` values produced by `float(...)` on cleaned numeric text are
modelled as exact decimal rationals (`ℚ`); IEEE rounding is not modelled
(the pipeline performs no arithmetic on the parsed values).  Python's
`str.isdigit` is modelled as ASCII `Char.isDigit`; exotic non-ASCII Unicode
digits are outside the model.
-/

/-- Character test matching Python's `str.isspace`/`str.strip` whitespace set
(ASCII whitespace, the C1 separators, NEL, NBSP and the Unicode space
separators). -/
def pyIsSpace (c : Char) : Bool :=
  [9, 10, 11, 12, 13, 28, 29, 30, 31, 32, 133, 160, 0x1680, 0x2000, 0x2001,
   0x2002, 0x2003, 0x2004, 0x2005, 0x2006, 0x2007, 0x2008, 0x2009, 0x200a,
   0x2028, 0x2029, 0x202f, 0x205f, 0x3000].contains c.toNat

/-- Python `str.strip()`: drop leading and trailing whitespace. -/
def pyStripL (l : List Char) : List Char :=
  ((l.dropWhile pyIsSpace).reverse.dropWhile pyIsSpace).reverse

/-- Python `str.lower()` restricted to ASCII case mapping (the code only
compares lowered strings against the ASCII literals `nan`/`none`). -/
def lowerL (l : List Char) : List Char := l.map Char.toLower

/-- Python `s.split('.')`: split on every dot, keeping empty pieces; the
result is always non-empty. -/
def splitOnDot : List Char → List (List Char)
  | [] => [[]]
  | c :: cs =>
    if c = '.' then [] :: splitOnDot cs
    else
      match splitOnDot cs with
      | [] => [[c]]
      | p :: ps => (c :: p) :: ps

/-- The comprehension `''.join(c for c in s if c.isdigit())` used for the
date parts and for `meter_number`. -/
def digitsOnly (l : List Char) : List Char := l.filter (fun c => c.isDigit)

/-- Python `int(...)` on a non-empty all-digit string. -/
def natOfDigits (l : List Char) : ℕ :=
  l.foldl (fun n c => 10 * n + (c.toNat - 48)) 0

/-- Python `str.zfill` for unsigned strings: pad with `'0'` on the left up to
width `w` (the call sites only ever pass all-digit strings, so the sign
special case of `zfill` cannot trigger). -/
def zfillL (w : ℕ) (l : List Char) : List Char :=
  List.replicate (w - l.length) '0' ++ l

/-- Year/month/day formatting step of `convert_date_vectorized`
(src/data/data_preprocessing.py lines 78-91): reject empty digit-stripped
parts, map 2-digit years through the 50-pivot, pass 4-digit years through,
reject other year lengths, and emit `YYYY-MM-DD` zero-padded. -/
def formatYMD (dd mm yy : List Char) : Option (List Char) :=
  if dd = [] ∨ mm = [] ∨ yy = [] then none
  else if yy.length = 2 then
    some (zfillL 4 (if natOfDigits yy < 50 then '2' :: '0' :: yy
        else '1' :: '9' :: yy) ++
      '-' :: (zfillL 2 mm ++ '-' :: zfillL 2 dd))
  else if yy.length = 4 then
    some (zfillL 4 yy ++ '-' :: (zfillL 2 mm ++ '-' :: zfillL 2 dd))
  else none

/-- Dispatch on the dot-split of the stripped date string.  In the source the
code first tests `'.' in date_str` and then `len(parts) == 3`; both failure
paths append the stripped string unchanged, and a dot-free string splits into
the single-element list, so the two tests collapse into this one match. -/
def convertParts : List (List Char) → List Char → Option (List Char)
  | [d, m, y], _ => formatYMD (digitsOnly d) (digitsOnly m) (digitsOnly y)
  | _, t => some t

/-- Per-element body of `convert_date_vectorized`
(src/data/data_preprocessing.py lines 62-95).  The `try` block can only
raise on `int(year)`, which cannot fail on a non-empty all-digit string, so
the `except` path is unreachable in the model. -/
def convert_date (s : List Char) : Option (List Char) :=
  if pyStripL s = [] ∨ lowerL (pyStripL s) = "nan".data ∨
      lowerL (pyStripL s) = "none".data then none
  else convertParts (splitOnDot (pyStripL s)) (pyStripL s)

/-- `convert_date_vectorized` maps the per-element conversion over the
series. -/
def convert_date_vectorized (series : List (List Char)) : List (Option (List Char)) :=
  series.map convert_date

/-- Characters retained by the consumption cleaner: digits, dot, minus. -/
def keepNumChar (c : Char) : Bool := c.isDigit || c == '.' || c == '-'

/-- Python `float(t)` where `t` contains no sign (general `float` also
accepts exponents, `inf`, `nan`, `_`, and surrounding whitespace, but every
call site passes a string made only of digits, `'.'` and `'-'`). -/
def pyFloatPos (t : List Char) : Option ℚ :=
  if t.any (fun c => !(c.isDigit || c == '.')) then none
  else
    match splitOnDot t with
    | [ip] => if ip = [] then none else some (natOfDigits ip : ℚ)
    | [ip, fp] =>
      if ip = [] ∧ fp = [] then none
      else some ((natOfDigits ip : ℚ) + (natOfDigits fp : ℚ) / (10 : ℚ) ^ fp.length)
    | _ => none

/-- Python `float(s)` restricted to strings of digits, `'.'` and `'-'`:
an optional single leading minus followed by digits with at most one dot and
at least one digit. -/
def pyFloat : List Char → Option ℚ
  | '-' :: t => (pyFloatPos t).map (fun q => -q)
  | t => pyFloatPos t

/-- `clean_consumption_simple` (src/data/data_preprocessing.py lines
110-130): strip, null on empty/`nan`/`none`, drop spaces and NBSP, turn `,`
into `.`, retain digits/dot/minus, null on empty or bare `-`, else parse as
a float with parse failure giving null. -/
def clean_consumption_simple (v : List Char) : Option ℚ :=
  let t := pyStripL v
  if t = [] ∨ lowerL t = "nan".data ∨ lowerL t = "none".data then none
  else
    let u := (t.filter (fun c => !(c == ' ' || c == '\xA0'))).map
      (fun c => if c = ',' then '.' else c)
    let cleaned := u.filter keepNumChar
    if cleaned = [] ∨ cleaned = ['-'] then none
    else pyFloat cleaned

/-- Text-field cleaner for `city`, `account_number`, `reading_method`
(src/data/data_preprocessing.py lines 140-142): strip, delete `'"'`,
replace NBSP by an ordinary space. -/
def cleanText (s : List Char) : List Char :=
  ((pyStripL s).filter (fun c => c != '\"')).map
    (fun c => if c = '\xA0' then ' ' else c)

/-- One parsed input row: the six fixed-position text fields
(src/data/data_preprocessing.py line 46). -/
structure RawRecord where
  city : List Char
  account_number : List Char
  meter_number : List Char
  reading_date : List Char
  consumption : List Char
  reading_method : List Char
deriving DecidableEq

/-- One row after per-field cleaning. -/
structure CleanRecord where
  city : List Char
  account_number : List Char
  meter_number : List Char
  reading_date : Option (List Char)
  consumption : Option ℚ
  reading_method : List Char
deriving DecidableEq

/-- Per-field cleaning phase of `clean_csv_data` (steps 1-4, lines 56-142);
the four cleaners act on disjoint columns, so the sequencing in the source
carries no dependency. -/
def cleanFields (r : RawRecord) : CleanRecord where
  city := cleanText r.city
  account_number := cleanText r.account_number
  meter_number := digitsOnly r.meter_number
  reading_date := convert_date r.reading_date
  consumption := clean_consumption_simple r.consumption
  reading_method := cleanText r.reading_method

/-- Row-survival mask of `clean_csv_data` (lines 149-151): trimmed
`account_number` non-empty, `reading_date` not NA, trimmed `meter_number`
non-empty. -/
def rowMask (c : CleanRecord) : Bool :=
  !(pyStripL c.account_number).isEmpty && c.reading_date.isSome &&
    !(pyStripL c.meter_number).isEmpty

/-- Field cleaning followed by the row filter (steps 1-5 of
`clean_csv_data`); the rows kept here are exactly the rows the function
persists. -/
def normalizeRows (rs : List RawRecord) : List CleanRecord :=
  (rs.map cleanFields).filter rowMask

/-- CSV write-back of a cleaned row, as performed by `to_csv` on the cleaned
frame: `None` becomes the empty field and a parsed consumption value is
rendered by the given rendering function (Python's float repr is not
modelled; theorems quantify over the rendering). -/
def writeBack (renderQ : ℚ → List Char) (c : CleanRecord) : RawRecord where
  city := c.city
  account_number := c.account_number
  meter_number := c.meter_number
  reading_date := c.reading_date.getD []
  consumption := (c.consumption.map renderQ).getD []
  reading_method := c.reading_method

/-- `get_season` (src/old/download_normalize.py lines 70-78). -/
def get_season (month : ℕ) : String :=
  if month = 12 ∨ month = 1 ∨ month = 2 then "winter"
  else if month = 3 ∨ month = 4 ∨ month = 5 then "spring"
  else if month = 6 ∨ month = 7 ∨ month = 8 then "summer"
  else "autumn"

/-- Heating-season flag (src/old/download_normalize.py lines 85-87):
`1 if x in [10, 11, 12, 1, 2, 3, 4] else 0`. -/
def heating_season (month : ℕ) : ℕ :=
  if month ∈ [10, 11, 12, 1, 2, 3, 4] then 1 else 0

/-- Season expression of `GasDataCleaner.clean_data`
(src/src/data_processing/cleaner.py lines 33-40): the polars
`when/then/otherwise` chain over month membership. -/
def season_polars (month : ℕ) : String :=
  if month ∈ [12, 1, 2] then "winter"
  else if month ∈ [3, 4, 5] then "spring"
  else if month ∈ [6, 7, 8] then "summer"
  else "autumn"

/-- Heating-season expression of `GasDataCleaner.clean_data`
(src/src/data_processing/cleaner.py lines 43-46). -/
def heating_season_polars (month : ℕ) : ℕ :=
  if month ∈ [10, 11, 12, 1, 2, 3, 4] then 1 else 0

/-- A successfully decoded and parsed CSV file: its column count and, when
the schema is the expected six-column one, its rows. -/
structure ParsedFile where
  ncols : ℕ
  rows : List RawRecord
deriving DecidableEq

/-- The ordered candidate list of `clean_csv_data` (line 24): detected
guess, then the fixed fallbacks. -/
def encodings_to_try (guess : String) : List String :=
  [guess, "windows-1251", "cp1251", "utf-8-sig", "utf-8", "MacCyrillic"]

/-- The encoding retry loop (lines 26-38): try each candidate in order,
short-circuiting on the first success; `none` when every candidate fails
(the `for/else` branch).  `readEnc e` abstracts `pd.read_csv` under encoding
`e`, `none` meaning the decode failed. -/
def tryEncodings (readEnc : String → Option ParsedFile) :
    List String → Option ParsedFile
  | [] => none
  | e :: rest =>
    match readEnc e with
    | some pf => some pf
    | none => tryEncodings readEnc rest

/-- File-level behaviour of `clean_csv_data`: `none` models `return False`
(file skipped, nothing written); `some rows` models a successful run
persisting exactly `rows`.  A column count below six is rejected explicitly
(lines 41-43); a count above six makes the six-name column assignment at
line 46 raise, which the enclosing handler turns into `return False` as
well. -/
def clean_csv_data (readEnc : String → Option ParsedFile) (guess : String) :
    Option (List CleanRecord) :=
  match tryEncodings readEnc (encodings_to_try guess) with
  | none => none
  | some pf =>
    if pf.ncols < 6 then none
    else if 6 < pf.ncols then none
    else some (normalizeRows pf.rows)

/-! ### Character-level helper lemmas -/

/-- Uppercase ASCII letters are not digits. -/
theorem isDigit_false_of_upper (c : Char) (h1 : 65 ≤ c.toNat) (h2 : c.toNat ≤ 90) :
    c.isDigit = false := by
  simp only [Char.isDigit, Bool.and_eq_false_iff, decide_eq_false_iff_not]
  right
  intro hc
  have h3 : c.val.toNat ≤ (57 : UInt32).toNat := hc
  have e1 : (57 : UInt32).toNat = 57 := rfl
  have e2 : c.val.toNat = c.toNat := rfl
  omega

/-- Characters with equal code points are equal. -/
theorem toNat_inj_char {a b : Char} (h : a.toNat = b.toNat) : a = b :=
  Char.eq_of_val_eq (UInt32.ext h)

/-- Code point of `Char.ofNat` at a valid code point. -/
theorem toNat_ofNat_valid (n : ℕ) (h : n.isValidChar) : (Char.ofNat n).toNat = n := by
  simp [Char.ofNat, h]
  rfl

/-- Inversion for `Char.toLower`: the original character is the result
itself or its uppercase ASCII counterpart. -/
theorem toLower_inv {c t : Char} (h : c.toLower = t) :
    c = t ∨ (65 ≤ c.toNat ∧ c.toNat ≤ 90 ∧ c.toNat + 32 = t.toNat) := by
  dsimp only [Char.toLower] at h
  split at h
  · rename_i hc
    right
    refine ⟨hc.1, hc.2, ?_⟩
    have hv : (c.toNat + 32).isValidChar := by
      constructor
      omega
    rw [← h]
    exact (toNat_ofNat_valid _ hv).symm
  · left; exact h

/-- A character whose lowercase form is a lowercase letter is not retained
by the numeric filter, even after the comma-to-dot substitution. -/
theorem keep_false_of_lower_letter {c t : Char} (h : c.toLower = t)
    (ht : 97 ≤ t.toNat) (ht2 : t.toNat ≤ 122) (htk : keepNumChar t = false) :
    keepNumChar (if c = ',' then '.' else c) = false := by
  have h44 : (',' : Char).toNat = 44 := rfl
  have h46 : ('.' : Char).toNat = 46 := rfl
  have h45 : ('-' : Char).toNat = 45 := rfl
  rcases toLower_inv h with hct | ⟨h1, h2, h3⟩
  · have hcn : c.toNat = t.toNat := by rw [hct]
    have hne : c ≠ ',' := by
      intro hh
      have : c.toNat = 44 := by rw [hh]; exact h44
      omega
    rw [if_neg hne, hct]
    exact htk
  · have hne : c ≠ ',' := by
      intro hh
      have : c.toNat = 44 := by rw [hh]; exact h44
      omega
    rw [if_neg hne]
    simp only [keepNumChar, isDigit_false_of_upper c h1 h2, Bool.false_or,
      Bool.or_eq_false_iff, beq_eq_false_iff_ne, ne_eq]
    constructor
    · intro hh
      have : c.toNat = 46 := by rw [hh]; exact h46
      omega
    · intro hh
      have : c.toNat = 45 := by rw [hh]; exact h45
      omega

/-! ### Claim C3: season and heating-season tables -/

/-- C3: for every month 1-12 the derived season is winter on {12,1,2},
spring on {3,4,5}, summer on {6,7,8} and autumn on {9,10,11}, and the
heating-season flag is 1 exactly on {10,11,12,1,2,3,4}; both derivations
are total functions of the month alone (they take only the month as
argument), the pandas and polars versions agree, and no error path exists
(every month yields a value). -/
theorem season_heating_of_month (m : ℕ) (h1 : 1 ≤ m) (h2 : m ≤ 12) :
    ((m = 12 ∨ m = 1 ∨ m = 2) → get_season m = "winter") ∧
    ((m = 3 ∨ m = 4 ∨ m = 5) → get_season m = "spring") ∧
    ((m = 6 ∨ m = 7 ∨ m = 8) → get_season m = "summer") ∧
    ((m = 9 ∨ m = 10 ∨ m = 11) → get_season m = "autumn") ∧
    (heating_season m = 1 ↔
      (m = 10 ∨ m = 11 ∨ m = 12 ∨ m = 1 ∨ m = 2 ∨ m = 3 ∨ m = 4)) ∧
    (heating_season m = 0 ↔
      ¬(m = 10 ∨ m = 11 ∨ m = 12 ∨ m = 1 ∨ m = 2 ∨ m = 3 ∨ m = 4)) ∧
    get_season m = season_polars m ∧
    heating_season m = heating_season_polars m := by
  interval_cases m <;> exact ⟨by decide, by decide, by decide, by decide,
    by decide, by decide, by decide, by decide⟩

/-- Witness for `season_heating_of_month` at month 7. -/
theorem season_heating_of_month_witness :
    get_season 7 = "summer" ∧ heating_season 7 = 0 :=
  ⟨(season_heating_of_month 7 (by decide) (by decide)).2.2.1 (by decide),
   (season_heating_of_month 7 (by decide) (by decide)).2.2.2.2.2.1.mpr (by decide)⟩

/-! ### Claim C9: two-digit-year pivot values -/

/-- C9 counterexample: contrary to the claim, `"01.01.50"` does not clean
to `1919-01-01` (the code maps year `50` to `1950`). -/
theorem convert_date_50_cex :
    convert_date "01.01.50".data ≠ some "1919-01-01".data := by decide

/-- C9 as amended: `"01.01.49"` cleans to `2049-01-01` and `"01.01.50"`
cleans to `1950-01-01`. -/
theorem convert_date_pivot_values :
    convert_date "01.01.49".data = some "2049-01-01".data ∧
    convert_date "01.01.50".data = some "1950-01-01".data := by
  exact ⟨by decide, by decide⟩

/-! ### Claims C5 and C6: encoding fallback and schema rejection -/

/-- The retry loop fails exactly when every candidate encoding fails. -/
theorem tryEncodings_eq_none_iff (readEnc : String → Option ParsedFile) :
    ∀ l : List String,
      tryEncodings readEnc l = none ↔ ∀ e ∈ l, readEnc e = none := by
  intro l
  induction l with
  | nil => simp [tryEncodings]
  | cons e rest ih =>
    unfold tryEncodings
    cases h : readEnc e with
    | some pf => simp [h]
    | none => simp [h, ih]

/-- The retry loop returns the first successful candidate. -/
theorem tryEncodings_first_success (readEnc : String → Option ParsedFile) :
    ∀ (pre : List String) (e : String) (post : List String) (pf : ParsedFile),
      (∀ x ∈ pre, readEnc x = none) → readEnc e = some pf →
      tryEncodings readEnc (pre ++ e :: post) = some pf := by
  intro pre
  induction pre with
  | nil =>
    intro e post pf _ he
    simp only [List.nil_append]
    unfold tryEncodings
    rw [he]
  | cons x pre' ih =>
    intro e post pf hpre he
    simp only [List.cons_append]
    unfold tryEncodings
    rw [hpre x (List.mem_cons_self x pre')]
    exact ih e post pf (fun y hy => hpre y (List.mem_cons_of_mem x hy)) he

/-- C5: decoding is attempted over the ordered candidate list (detected
guess, Windows-1251, CP1251, UTF-8-sig, UTF-8, Mac-Cyrillic), the first
success short-circuits the rest, the decode stage fails iff every candidate
fails, and in that case the whole file run yields `none` — the file is
skipped with no rows produced instead of the batch crashing (the model is a
total function, so no exception escapes). -/
theorem encoding_fallback_chain (readEnc : String → Option ParsedFile)
    (guess : String) :
    (tryEncodings readEnc (encodings_to_try guess) = none ↔
      ∀ e ∈ [guess, "windows-1251", "cp1251", "utf-8-sig", "utf-8",
        "MacCyrillic"], readEnc e = none) ∧
    ((∀ e ∈ encodings_to_try guess, readEnc e = none) →
      clean_csv_data readEnc guess = none) ∧
    (∀ (pre : List String) (e : String) (post : List String) (pf : ParsedFile),
      encodings_to_try guess = pre ++ e :: post →
      (∀ x ∈ pre, readEnc x = none) → readEnc e = some pf →
      tryEncodings readEnc (encodings_to_try guess) = some pf) := by
  refine ⟨tryEncodings_eq_none_iff readEnc _, ?_, ?_⟩
  · intro hall
    unfold clean_csv_data
    rw [(tryEncodings_eq_none_iff readEnc _).mpr hall]
  · intro pre e post pf hsplit hpre he
    rw [hsplit]
    exact tryEncodings_first_success readEnc pre e post pf hpre he

/-- Concrete schema-invalid parse result used by witnesses: four columns. -/
def pfNarrow : ParsedFile where
  ncols := 4
  rows := []

/-- Concrete decode behaviour used by witnesses: only UTF-8 succeeds. -/
def readNarrow (e : String) : Option ParsedFile :=
  if e = "utf-8" then some pfNarrow else none

/-- Witness for `encoding_fallback_chain`: with every candidate failing the
file run yields `none`, and with only UTF-8 succeeding the loop returns its
parse after the four earlier candidates fail. -/
theorem encoding_fallback_chain_witness :
    clean_csv_data (fun _ => none) "guess" = none ∧
    tryEncodings readNarrow (encodings_to_try "guess") = some pfNarrow :=
  ⟨(encoding_fallback_chain (fun _ => none) "guess").2.1 (fun _ _ => rfl),
   (encoding_fallback_chain readNarrow "guess").2.2
     ["guess", "windows-1251", "cp1251", "utf-8-sig"] "utf-8" ["MacCyrillic"]
     pfNarrow rfl (by decide) (by decide)⟩

/-- C6: a successfully decoded file whose parsed table has fewer than six
columns makes the whole run yield `none` — the file is rejected before any
row-level cleaning (no row of it is ever passed to the cleaners) and zero
rows are produced. -/
theorem narrow_schema_rejected (readEnc : String → Option ParsedFile)
    (guess : String) (pf : ParsedFile)
    (hread : tryEncodings readEnc (encodings_to_try guess) = some pf)
    (hcols : pf.ncols < 6) :
    clean_csv_data readEnc guess = none := by
  unfold clean_csv_data
  rw [hread]
  simp [hcols]

/-- Witness for `narrow_schema_rejected` on the four-column file. -/
theorem narrow_schema_rejected_witness :
    clean_csv_data readNarrow "guess" = none :=
  narrow_schema_rejected readNarrow "guess" pfNarrow (by decide) (by decide)

/-! ### Claim C4: the consumption cleaner -/

/-- When the stripped value lowercases to a word of lowercase letters (the
`nan`/`none` placeholders), the numeric filter retains nothing. -/
theorem cleaned_nil_of_lower_word (t w : List Char)
    (hw : ∀ x ∈ w, 97 ≤ x.toNat ∧ x.toNat ≤ 122 ∧ keepNumChar x = false)
    (h : lowerL t = w) :
    ((t.filter (fun c => !(c == ' ' || c == '\xA0'))).map
      (fun c => if c = ',' then '.' else c)).filter keepNumChar = [] := by
  rw [List.filter_eq_nil_iff]
  intro x hx
  rw [List.mem_map] at hx
  obtain ⟨c, hc, rfl⟩ := hx
  rw [List.mem_filter] at hc
  have hcl : c.toLower ∈ w := by
    rw [← h]
    exact List.mem_map_of_mem _ hc.1
  obtain ⟨h1, h2, h3⟩ := hw _ hcl
  simp only [Bool.not_eq_true]
  exact keep_false_of_lower_letter rfl h1 h2 h3

/-- C4: for every input the consumption cleaner trims, removes ordinary and
non-breaking spaces, maps `,` to `.`, retains only digits, `.` and `-`;
an empty or bare-`-` retained string yields null and otherwise the retained
string is parsed as a float, any parse failure yielding null (the cleaner is
a total function, so it never raises); concretely `"1 234,56"` parses to
1234.56, `"  -"` to null and `""` to null.  The separate `nan`/`none`
placeholder short-circuit in the code is extensionally absorbed: such
values retain no numeric character. -/
theorem clean_consumption_behaviour :
    (∀ v : List Char,
      clean_consumption_simple v =
        (let cleaned := (((pyStripL v).filter (fun c => !(c == ' ' || c == '\xA0'))).map
            (fun c => if c = ',' then '.' else c)).filter keepNumChar
         if cleaned = [] ∨ cleaned = ['-'] then none else pyFloat cleaned)) ∧
    clean_consumption_simple "1 234,56".data = some (123456 / 100 : ℚ) ∧
    clean_consumption_simple "  -".data = none ∧
    clean_consumption_simple "".data = none := by
  refine ⟨?_, ?_, by decide, by decide⟩
  case refine_2 =>
    have h : clean_consumption_simple "1 234,56".data
        = some ((1234 : ℚ) + (56 : ℚ) / (10 : ℚ) ^ (2 : ℕ)) := by rfl
    rw [h]
    norm_num
  intro v
  unfold clean_consumption_simple
  by_cases hg : pyStripL v = [] ∨ lowerL (pyStripL v) = "nan".data ∨
      lowerL (pyStripL v) = "none".data
  · rw [if_pos hg]
    have hnil : ((((pyStripL v).filter (fun c => !(c == ' ' || c == '\xA0'))).map
        (fun c => if c = ',' then '.' else c)).filter keepNumChar) = [] := by
      rcases hg with hg | hg | hg
      · rw [hg]
        rfl
      · exact cleaned_nil_of_lower_word _ _ (by decide) hg
      · exact cleaned_nil_of_lower_word _ _ (by decide) hg
    rw [hnil]
    rfl
  · rw [if_neg hg]

/-! ### Claims C2 and C7: the row validator and what it ignores -/

/-- The survival mask holds iff trimmed account non-empty, date non-null
and trimmed meter non-empty. -/
theorem rowMask_eq_true_iff (c : CleanRecord) :
    rowMask c = true ↔
      (pyStripL c.account_number ≠ [] ∧ c.reading_date.isSome ∧
        pyStripL c.meter_number ≠ []) := by
  simp [rowMask, List.isEmpty_iff, and_assoc]

/-- C2: after field cleaning a row survives the row validator iff its
trimmed `account_number` is non-empty, its `reading_date` is non-null and
its trimmed meter number is non-empty; in particular a row whose raw
`account_number` is empty is dropped from the output regardless of the
validity of every other field. -/
theorem row_survival_iff :
    (∀ rs : List RawRecord,
      normalizeRows rs = (rs.map cleanFields).filter rowMask) ∧
    (∀ c : CleanRecord, rowMask c = true ↔
      (pyStripL c.account_number ≠ [] ∧ c.reading_date.isSome ∧
        pyStripL c.meter_number ≠ [])) ∧
    (∀ (r : RawRecord) (rs : List RawRecord), r.account_number = [] →
      cleanFields r ∉ normalizeRows rs) := by
  refine ⟨fun rs => rfl, rowMask_eq_true_iff, ?_⟩
  intro r rs hacc hmem
  have hmask : rowMask (cleanFields r) = true := (List.mem_filter.mp hmem).2
  have hempty : pyStripL (cleanFields r).account_number = [] := by
    rw [show (cleanFields r).account_number = cleanText r.account_number from rfl,
      hacc]
    rfl
  exact ((rowMask_eq_true_iff (cleanFields r)).mp hmask).1 hempty

/-- Concrete row with an empty `account_number` and every other field
valid, used by the C2 witness. -/
def rEmptyAcc : RawRecord where
  city := "City".data
  account_number := []
  meter_number := "123".data
  reading_date := "01.01.2020".data
  consumption := "5".data
  reading_method := "m".data

/-- Witness for `row_survival_iff`: the empty-account row is dropped. -/
theorem row_survival_iff_witness :
    cleanFields rEmptyAcc ∉ normalizeRows [rEmptyAcc] :=
  row_survival_iff.2.2 rEmptyAcc [rEmptyAcc] rfl

/-- Concrete row whose consumption field cleans to null while the three
required fields are valid. -/
def rNullCons : RawRecord where
  city := "C".data
  account_number := "A".data
  meter_number := "1".data
  reading_date := "01.01.2020".data
  consumption := "abc".data
  reading_method := "m".data

/-- C7 counterexample: a row whose consumption cleans to null survives the
filter and is persisted — the output of the cleaning run contains a row
with null consumption, so not every persisted row has a non-null
consumption value. -/
theorem null_consumption_persisted_cex :
    normalizeRows [rNullCons] = [cleanFields rNullCons] ∧
    (cleanFields rNullCons).consumption = none :=
  ⟨by decide, by decide⟩

/-- C7 as amended: every row persisted by the cleaning run has a non-empty
trimmed account, a non-null reading date and a non-empty trimmed meter
number, but its consumption is unconstrained — the row filter is
independent of the consumption value, so rows whose consumption cleaned to
null are persisted rather than dropped. -/
theorem persisted_row_facts (rs : List RawRecord) (c : CleanRecord)
    (hc : c ∈ normalizeRows rs) :
    (pyStripL c.account_number ≠ [] ∧ c.reading_date.isSome ∧
      pyStripL c.meter_number ≠ []) ∧
    (∀ q : Option ℚ, rowMask { c with consumption := q } = rowMask c) := by
  refine ⟨?_, fun q => rfl⟩
  exact (rowMask_eq_true_iff c).mp (List.mem_filter.mp hc).2

/-- Witness for `persisted_row_facts` on the null-consumption row. -/
theorem persisted_row_facts_witness :
    pyStripL (cleanFields rNullCons).account_number ≠ [] :=
  (persisted_row_facts [rNullCons] (cleanFields rNullCons) (by decide)).1.1

/-! ### Structural lemmas about the dot-split and Python strip -/

/-- The dot-split never returns an empty list of parts. -/
theorem splitOnDot_ne_nil (l : List Char) : splitOnDot l ≠ [] := by
  induction l with
  | nil => simp [splitOnDot]
  | cons c cs ih =>
    simp only [splitOnDot]
    by_cases hc : c = '.'
    · simp [hc]
    · simp only [if_neg hc]
      cases h : splitOnDot cs with
      | nil => simp
      | cons p ps => simp

/-- Unfolding of the dot-split on a cons cell in `headI`/`tail` form. -/
theorem splitOnDot_cons (c : Char) (cs : List Char) :
    splitOnDot (c :: cs) = if c = '.' then [] :: splitOnDot cs
      else (c :: (splitOnDot cs).headI) :: (splitOnDot cs).tail := by
  by_cases hc : c = '.'
  · simp only [splitOnDot, if_pos hc]
  · cases h : splitOnDot cs with
    | nil => exact absurd h (splitOnDot_ne_nil cs)
    | cons p ps => simp [splitOnDot, hc, h]

/-- Dropping a dot-free prefix only shortens the first part of the
dot-split. -/
theorem splitOnDot_dropWhile (p : Char → Bool) (hp : p '.' = false)
    (l : List Char) :
    splitOnDot (l.dropWhile p)
      = ((splitOnDot l).headI.dropWhile p) :: (splitOnDot l).tail := by
  induction l with
  | nil => simp [splitOnDot]
  | cons c cs ih =>
    by_cases hc : c = '.'
    · subst hc
      rw [List.dropWhile_cons_of_neg (by simp [hp]), splitOnDot_cons]
      simp
    · by_cases hpc : p c = true
      · rw [List.dropWhile_cons_of_pos hpc, ih, splitOnDot_cons, if_neg hc]
        simp [List.dropWhile_cons_of_pos hpc]
      · rw [List.dropWhile_cons_of_neg (by simp [hpc]), splitOnDot_cons,
          if_neg hc]
        simp only [List.headI_cons, List.tail_cons, List.cons.injEq, and_true]
        exact (List.dropWhile_cons_of_neg hpc).symm

/-- Appending one character extends the last part of the dot-split, or opens
a fresh empty part when the character is the dot. -/
theorem splitOnDot_concat (l : List Char) (c : Char) :
    splitOnDot (l ++ [c]) =
      if c = '.' then splitOnDot l ++ [[]]
      else (splitOnDot l).dropLast ++ [(splitOnDot l).getLastD [] ++ [c]] := by
  induction l with
  | nil =>
    by_cases hc : c = '.'
    · simp [splitOnDot, hc]
    · simp [splitOnDot, hc]
  | cons a l ih =>
    simp only [List.cons_append]
    rw [splitOnDot_cons (c := a), splitOnDot_cons (c := a), ih]
    by_cases ha : a = '.'
    · rw [if_pos ha, if_pos ha]
      by_cases hc : c = '.'
      · simp [hc]
      · rw [if_neg hc, if_neg hc]
        cases h : splitOnDot l with
        | nil => exact absurd h (splitOnDot_ne_nil l)
        | cons s0 S => simp [List.getLastD_cons]
    · rw [if_neg ha, if_neg ha]
      cases h : splitOnDot l with
      | nil => exact absurd h (splitOnDot_ne_nil l)
      | cons s0 S =>
        by_cases hc : c = '.'
        · rw [if_pos hc, if_pos hc]
          simp
        · rw [if_neg hc, if_neg hc]
          cases S with
          | nil => simp
          | cons s1 S' => simp [List.getLastD_cons]

/-- The dot-split commutes with list reversal. -/
theorem splitOnDot_reverse (l : List Char) :
    splitOnDot l.reverse = ((splitOnDot l).map List.reverse).reverse := by
  induction l with
  | nil => simp [splitOnDot]
  | cons c cs ih =>
    rw [List.reverse_cons, splitOnDot_concat, splitOnDot_cons, ih]
    by_cases hc : c = '.'
    · rw [if_pos hc, if_pos hc]
      simp
    · rw [if_neg hc, if_neg hc]
      cases h : splitOnDot cs with
      | nil => exact absurd h (splitOnDot_ne_nil cs)
      | cons s0 S => simp

/-- Dropping characters satisfying `p` from the right end of a list. -/
def stripEnd (p : Char → Bool) (l : List Char) : List Char :=
  (l.reverse.dropWhile p).reverse

/-- Stripping a dot-free suffix only shortens the last part of the
dot-split. -/
theorem splitOnDot_stripEnd (p : Char → Bool) (hp : p '.' = false)
    (l : List Char) :
    splitOnDot (stripEnd p l)
      = (splitOnDot l).dropLast ++
          [stripEnd p ((splitOnDot l).getLastD [])] := by
  rcases (splitOnDot l).eq_nil_or_concat with h | ⟨T, y, hTy⟩
  · exact absurd h (splitOnDot_ne_nil l)
  have h1 : splitOnDot (stripEnd p l)
      = ((splitOnDot (l.reverse.dropWhile p)).map List.reverse).reverse :=
    splitOnDot_reverse _
  rw [h1, splitOnDot_dropWhile p hp, splitOnDot_reverse l, hTy]
  simp [stripEnd, List.map_map, Function.comp]

/-- `pyStripL` as a left strip followed by a right strip. -/
theorem pyStripL_eq_stripEnd (l : List Char) :
    pyStripL l = stripEnd pyIsSpace (l.dropWhile pyIsSpace) := rfl

/-- Stripping whitespace off a three-part date string strips only the outer
ends of the first and last parts. -/
theorem splitOnDot_pyStrip_three {l d m y : List Char}
    (h : splitOnDot l = [d, m, y]) :
    splitOnDot (pyStripL l)
      = [d.dropWhile pyIsSpace, m, stripEnd pyIsSpace y] := by
  rw [pyStripL_eq_stripEnd, splitOnDot_stripEnd _ (by decide),
    splitOnDot_dropWhile _ (by decide), h]
  simp

/-- Stripping whitespace never changes the number of dot-split parts. -/
theorem splitOnDot_pyStrip_length (l : List Char) :
    (splitOnDot (pyStripL l)).length = (splitOnDot l).length := by
  rw [pyStripL_eq_stripEnd, splitOnDot_stripEnd _ (by decide),
    splitOnDot_dropWhile _ (by decide)]
  cases h : splitOnDot l with
  | nil => exact absurd h (splitOnDot_ne_nil l)
  | cons s0 S => simp [h]

/-- Code-point bounds of ASCII digits. -/
theorem isDigit_toNat_bounds (c : Char) (h : c.isDigit = true) :
    48 ≤ c.toNat ∧ c.toNat ≤ 57 := by
  simp only [Char.isDigit, Bool.and_eq_true, decide_eq_true_eq] at h
  obtain ⟨h1, h2⟩ := h
  have e1 : (48 : UInt32).toNat = 48 := rfl
  have e2 : (57 : UInt32).toNat = 57 := rfl
  have g1 : (48 : UInt32).toNat ≤ c.val.toNat := h1
  have g2 : c.val.toNat ≤ (57 : UInt32).toNat := h2
  have e3 : c.val.toNat = c.toNat := rfl
  omega

/-- Whitespace characters are never digits. -/
theorem pyIsSpace_not_digit {c : Char} (h : pyIsSpace c = true) :
    c.isDigit = false := by
  rcases hd : c.isDigit with _ | _
  · rfl
  · obtain ⟨h1, h2⟩ := isDigit_toNat_bounds c hd
    simp [pyIsSpace] at h
    omega

/-- Digits and the dash are never whitespace. -/
theorem pyIsSpace_false_of_digit_or_dash {c : Char}
    (h : c.isDigit = true ∨ c = '-') : pyIsSpace c = false := by
  rcases hs : pyIsSpace c with _ | _
  · rfl
  · rcases h with hd | hd
    · obtain ⟨h1, h2⟩ := isDigit_toNat_bounds c hd
      simp [pyIsSpace] at hs
      omega
    · subst hd
      simp [pyIsSpace] at hs

/-- Digit extraction ignores a stripped whitespace prefix. -/
theorem digitsOnly_dropWhile_pyIsSpace (l : List Char) :
    digitsOnly (l.dropWhile pyIsSpace) = digitsOnly l := by
  induction l with
  | nil => rfl
  | cons c cs ih =>
    by_cases hpc : pyIsSpace c = true
    · rw [List.dropWhile_cons_of_pos hpc, ih]
      simp [digitsOnly, List.filter_cons, pyIsSpace_not_digit hpc]
    · rw [List.dropWhile_cons_of_neg (by simp [hpc])]

/-- Digit extraction commutes with reversal. -/
theorem digitsOnly_reverse (l : List Char) :
    digitsOnly l.reverse = (digitsOnly l).reverse := by
  simp [digitsOnly, List.filter_reverse]

/-- Digit extraction ignores a stripped whitespace suffix. -/
theorem digitsOnly_stripEnd (l : List Char) :
    digitsOnly (stripEnd pyIsSpace l) = digitsOnly l := by
  unfold stripEnd
  rw [digitsOnly_reverse, digitsOnly_dropWhile_pyIsSpace, digitsOnly_reverse,
    List.reverse_reverse]

/-- Every character of a dot-split part occurs in the split string. -/
theorem mem_of_mem_splitOnDot {c : Char} :
    ∀ {l part : List Char}, part ∈ splitOnDot l → c ∈ part → c ∈ l := by
  intro l
  induction l with
  | nil =>
    intro part hp hc
    simp [splitOnDot] at hp
    subst hp
    exact absurd hc (List.not_mem_nil c)
  | cons a cs ih =>
    intro part hp hc
    rw [splitOnDot_cons] at hp
    by_cases ha : a = '.'
    · rw [if_pos ha] at hp
      rcases List.mem_cons.mp hp with rfl | hp'
      · exact absurd hc (List.not_mem_nil c)
      · exact List.mem_cons_of_mem a (ih hp' hc)
    · rw [if_neg ha] at hp
      rcases List.mem_cons.mp hp with rfl | hp'
      · rcases List.mem_cons.mp hc with rfl | hc'
        · exact List.mem_cons_self c cs
        · have hmem : (splitOnDot cs).headI ∈ splitOnDot cs := by
            cases h : splitOnDot cs with
            | nil => exact absurd h (splitOnDot_ne_nil cs)
            | cons s0 S => simp
          exact List.mem_cons_of_mem a (ih hmem hc')
      · have hpart : part ∈ splitOnDot cs := List.mem_of_mem_tail hp'
        exact List.mem_cons_of_mem a (ih hpart hc)

/-- A dot-free string is a single dot-split part. -/
theorem splitOnDot_eq_single {l : List Char} (h : '.' ∉ l) :
    splitOnDot l = [l] := by
  induction l with
  | nil => rfl
  | cons c cs ih =>
    rw [splitOnDot_cons,
      if_neg (fun hc => h (by rw [← hc]; exact List.mem_cons_self c cs)),
      ih (fun hm => h (List.mem_cons_of_mem c hm))]
    simp

/-- `dropWhile` is the identity when no element satisfies the predicate. -/
theorem dropWhile_eq_self_of_all {p : Char → Bool} {l : List Char}
    (h : ∀ c ∈ l, p c = false) : l.dropWhile p = l := by
  cases l with
  | nil => rfl
  | cons c cs =>
    exact List.dropWhile_cons_of_neg
      (by simp [h c (List.mem_cons_self c cs)])

/-- A string with no whitespace character is already stripped. -/
theorem pyStripL_eq_self_of_all {l : List Char}
    (h : ∀ c ∈ l, pyIsSpace c = false) : pyStripL l = l := by
  unfold pyStripL
  rw [dropWhile_eq_self_of_all h,
    dropWhile_eq_self_of_all (fun c hc => h c (List.mem_reverse.mp hc)),
    List.reverse_reverse]

/-- The first surviving element of a `dropWhile` fails the predicate. -/
theorem p_head_false_of_dropWhile_cons {p : Char → Bool} {m : List Char}
    {c : Char} {cs : List Char} (h : m.dropWhile p = c :: cs) :
    p c = false := by
  induction m with
  | nil => simp [List.dropWhile] at h
  | cons a as ih =>
    by_cases hpa : p a = true
    · rw [List.dropWhile_cons_of_pos hpa] at h
      exact ih h
    · rw [List.dropWhile_cons_of_neg (by simp [hpa])] at h
      cases h
      simpa using hpa

/-- `dropWhile` is idempotent. -/
theorem dropWhile_idem (p : Char → Bool) (m : List Char) :
    (m.dropWhile p).dropWhile p = m.dropWhile p := by
  cases h : m.dropWhile p with
  | nil => rfl
  | cons c cs =>
    exact List.dropWhile_cons_of_neg
      (by simp [p_head_false_of_dropWhile_cons h])

/-- Python strip is idempotent. -/
theorem pyStripL_idem (l : List Char) :
    pyStripL (pyStripL l) = pyStripL l := by
  have hyx : ∃ t, pyStripL l ++ t = l.dropWhile pyIsSpace := by
    refine ⟨((l.dropWhile pyIsSpace).reverse.takeWhile pyIsSpace).reverse, ?_⟩
    have ht := List.takeWhile_append_dropWhile pyIsSpace
      (l.dropWhile pyIsSpace).reverse
    have hr := congrArg List.reverse ht
    simp only [List.reverse_append, List.reverse_reverse] at hr
    exact hr
  have h1 : (pyStripL l).dropWhile pyIsSpace = pyStripL l := by
    cases hyc : pyStripL l with
    | nil => rfl
    | cons c ys =>
      obtain ⟨t, ht⟩ := hyx
      have hxc : l.dropWhile pyIsSpace = c :: (ys ++ t) := by
        rw [← ht, hyc]
        simp
      exact List.dropWhile_cons_of_neg
        (by simp [p_head_false_of_dropWhile_cons hxc])
  have h2 : (pyStripL l).reverse.dropWhile pyIsSpace = (pyStripL l).reverse := by
    have hrev : (pyStripL l).reverse
        = (l.dropWhile pyIsSpace).reverse.dropWhile pyIsSpace := by
      unfold pyStripL
      rw [List.reverse_reverse]
    rw [hrev, dropWhile_idem]
  show ((((pyStripL l).dropWhile pyIsSpace).reverse).dropWhile pyIsSpace).reverse
    = pyStripL l
  rw [h1, h2, List.reverse_reverse]

/-- Lowercasing fixes digits. -/
theorem toLower_digit_self {c : Char} (h : c.isDigit = true) :
    c.toLower = c := by
  obtain ⟨b1, b2⟩ := isDigit_toNat_bounds c h
  dsimp only [Char.toLower]
  rw [if_neg (by omega : ¬(c.toNat ≥ 65 ∧ c.toNat ≤ 90))]

/-- A string containing a digit is neither empty nor a `nan`/`none`
placeholder. -/
theorem guard_false_of_digit_mem {l : List Char} {dig : Char}
    (hdig : dig.isDigit = true) (hmem : dig ∈ l) :
    ¬(l = [] ∨ lowerL l = "nan".data ∨ lowerL l = "none".data) := by
  have hnan : "nan".data = ['n', 'a', 'n'] := rfl
  have hnone : "none".data = ['n', 'o', 'n', 'e'] := rfl
  obtain ⟨b1, b2⟩ := isDigit_toNat_bounds dig hdig
  have hdl : dig.toLower = dig := toLower_digit_self hdig
  rintro (h | h | h)
  · subst h
    exact absurd hmem (List.not_mem_nil dig)
  · have hl : dig.toLower ∈ lowerL l := List.mem_map_of_mem _ hmem
    rw [h, hnan, hdl] at hl
    have e1 : ('n' : Char).toNat = 110 := rfl
    have e2 : ('a' : Char).toNat = 97 := rfl
    simp only [List.mem_cons, List.not_mem_nil, or_false] at hl
    rcases hl with hl | hl | hl
    · rw [hl] at b2; rw [e1] at b2; omega
    · rw [hl] at b2; rw [e2] at b2; omega
    · rw [hl] at b2; rw [e1] at b2; omega
  · have hl : dig.toLower ∈ lowerL l := List.mem_map_of_mem _ hmem
    rw [h, hnone, hdl] at hl
    have e1 : ('n' : Char).toNat = 110 := rfl
    have e2 : ('o' : Char).toNat = 111 := rfl
    have e3 : ('e' : Char).toNat = 101 := rfl
    simp only [List.mem_cons, List.not_mem_nil, or_false] at hl
    rcases hl with hl | hl | hl | hl
    · rw [hl] at b2; rw [e1] at b2; omega
    · rw [hl] at b2; rw [e2] at b2; omega
    · rw [hl] at b2; rw [e1] at b2; omega
    · rw [hl] at b2; rw [e3] at b2; omega

/-- A string containing a dash is neither empty nor a `nan`/`none`
placeholder. -/
theorem guard_false_of_dash_mem {l : List Char} (hmem : '-' ∈ l) :
    ¬(l = [] ∨ lowerL l = "nan".data ∨ lowerL l = "none".data) := by
  have hdl : ('-' : Char).toLower = '-' := rfl
  rintro (h | h | h)
  · subst h
    exact absurd hmem (List.not_mem_nil _)
  · have hl : ('-' : Char).toLower ∈ lowerL l := List.mem_map_of_mem _ hmem
    rw [h, hdl] at hl
    exact absurd hl (by decide)
  · have hl : ('-' : Char).toLower ∈ lowerL l := List.mem_map_of_mem _ hmem
    rw [h, hdl] at hl
    exact absurd hl (by decide)

/-- `zfill` is the identity at or above the target width. -/
theorem zfillL_eq_self {w : ℕ} {l : List Char} (h : w ≤ l.length) :
    zfillL w l = l := by
  simp [zfillL, Nat.sub_eq_zero_of_le h]

/-- The fallthrough arm of the parts dispatch. -/
theorem convertParts_not_three (parts : List (List Char)) (t : List Char)
    (h : parts.length ≠ 3) : convertParts parts t = some t := by
  match parts with
  | [] => rfl
  | [a] => rfl
  | [a, b] => rfl
  | [a, b, c] => exact absurd rfl h
  | a :: b :: c :: d :: rest => rfl

/-- Characters of a zero-padded string. -/
theorem mem_zfillL {w : ℕ} {l : List Char} {c : Char}
    (h : c ∈ zfillL w l) : c = '0' ∨ c ∈ l := by
  rcases List.mem_append.mp h with h | h
  · exact Or.inl (List.eq_of_mem_replicate h)
  · exact Or.inr h

/-- A successful `formatYMD` output consists of digits and dashes and
contains a dash. -/
theorem formatYMD_some_facts {dd mm yy r : List Char}
    (hdd : ∀ c ∈ dd, c.isDigit = true) (hmm : ∀ c ∈ mm, c.isDigit = true)
    (hyy : ∀ c ∈ yy, c.isDigit = true)
    (h : formatYMD dd mm yy = some r) :
    (∀ c ∈ r, c.isDigit = true ∨ c = '-') ∧ '-' ∈ r := by
  have key : ∀ A : List Char, (∀ c ∈ A, c.isDigit = true) →
      (∀ c ∈ A ++ '-' :: (zfillL 2 mm ++ '-' :: zfillL 2 dd),
        c.isDigit = true ∨ c = '-') ∧
      '-' ∈ A ++ '-' :: (zfillL 2 mm ++ '-' :: zfillL 2 dd) := by
    intro A hA
    constructor
    · intro c hc
      rcases List.mem_append.mp hc with hc | hc
      · exact Or.inl (hA c hc)
      · rcases List.mem_cons.mp hc with rfl | hc
        · exact Or.inr rfl
        · rcases List.mem_append.mp hc with hc | hc
          · rcases mem_zfillL hc with rfl | hc
            · exact Or.inl (by decide)
            · exact Or.inl (hmm c hc)
          · rcases List.mem_cons.mp hc with rfl | hc
            · exact Or.inr rfl
            · rcases mem_zfillL hc with rfl | hc
              · exact Or.inl (by decide)
              · exact Or.inl (hdd c hc)
    · exact List.mem_append.mpr (Or.inr (List.mem_cons_self _ _))
  unfold formatYMD at h
  by_cases h0 : dd = [] ∨ mm = [] ∨ yy = []
  · rw [if_pos h0] at h
    cases h
  rw [if_neg h0] at h
  by_cases h2 : yy.length = 2
  · rw [if_pos h2] at h
    obtain rfl := Option.some.inj h
    refine key _ ?_
    intro c hc
    rcases mem_zfillL hc with rfl | hc
    · decide
    · by_cases h50 : natOfDigits yy < 50
      · rw [if_pos h50] at hc
        rcases List.mem_cons.mp hc with rfl | hc
        · decide
        · rcases List.mem_cons.mp hc with rfl | hc
          · decide
          · exact hyy c hc
      · rw [if_neg h50] at hc
        rcases List.mem_cons.mp hc with rfl | hc
        · decide
        · rcases List.mem_cons.mp hc with rfl | hc
          · decide
          · exact hyy c hc
  rw [if_neg h2] at h
  by_cases h4 : yy.length = 4
  · rw [if_pos h4] at h
    obtain rfl := Option.some.inj h
    refine key _ ?_
    intro c hc
    rcases mem_zfillL hc with rfl | hc
    · decide
    · exact hyy c hc
  · rw [if_neg h4] at h
    cases h

/-- A dash-containing string of digits and dashes is a fixed point of the
date cleaner: it is returned unchanged inside `some`. -/
theorem convert_date_fixed_of_digit_dash {s : List Char}
    (hok : ∀ c ∈ s, c.isDigit = true ∨ c = '-') (hdash : '-' ∈ s) :
    convert_date s = some s := by
  have hstrip : pyStripL s = s :=
    pyStripL_eq_self_of_all
      (fun c hc => pyIsSpace_false_of_digit_or_dash (hok c hc))
  have hdot : '.' ∉ s := by
    intro hdotmem
    rcases hok '.' hdotmem with hh | hh
    · exact absurd hh (by decide)
    · exact absurd hh (by decide)
  unfold convert_date
  rw [hstrip, if_neg (guard_false_of_dash_mem hdash),
    splitOnDot_eq_single hdot]
  exact convertParts_not_three [s] s (by simp)

/-- Every value the date cleaner returns is a fixed point of the date
cleaner. -/
theorem convert_date_idem (s r : List Char) (h : convert_date s = some r) :
    convert_date r = some r := by
  unfold convert_date at h
  by_cases hg : pyStripL s = [] ∨ lowerL (pyStripL s) = "nan".data ∨
      lowerL (pyStripL s) = "none".data
  · rw [if_pos hg] at h
    cases h
  rw [if_neg hg] at h
  by_cases hlen : (splitOnDot (pyStripL s)).length = 3
  · obtain ⟨d, m, y, hdmy⟩ := List.length_eq_three.mp hlen
    rw [hdmy] at h
    have h' : formatYMD (digitsOnly d) (digitsOnly m) (digitsOnly y)
        = some r := h
    obtain ⟨hok, hdash⟩ := formatYMD_some_facts
      (fun c hc => (List.mem_filter.mp hc).2)
      (fun c hc => (List.mem_filter.mp hc).2)
      (fun c hc => (List.mem_filter.mp hc).2) h'
    exact convert_date_fixed_of_digit_dash hok hdash
  · have h' : r = pyStripL s := by
      rw [convertParts_not_three _ _ hlen] at h
      exact (Option.some.inj h).symm
    subst h'
    unfold convert_date
    rw [pyStripL_idem]
    rw [if_neg hg]
    exact convertParts_not_three _ _ hlen

/-- The meter-number cleaner is idempotent. -/
theorem digitsOnly_idem (l : List Char) :
    digitsOnly (digitsOnly l) = digitsOnly l :=
  List.filter_eq_self.mpr (fun _ ha => (List.mem_filter.mp ha).2)

/-- Mapping a function that fixes every element of a list is the
identity. -/
theorem map_eq_self_of {α : Type} {f : α → α} :
    ∀ {l : List α}, (∀ a ∈ l, f a = a) → l.map f = l := by
  intro l
  induction l with
  | nil => intro _; rfl
  | cons a as ih =>
    intro h
    rw [List.map_cons, h a (List.mem_cons_self a as),
      ih (fun b hb => h b (List.mem_cons_of_mem a hb))]

/-- The date cleaner nulls the empty string. -/
theorem convert_date_nil_eq : convert_date [] = none := by decide

/-- The consumption cleaner nulls the empty string. -/
theorem clean_consumption_nil_eq : clean_consumption_simple [] = none := by
  decide

/-! ### Claim C1: the three-part date grammar -/

/-- C1: for every input date string splitting on `.` into exactly three
parts whose digit-stripped day, month and year are each non-empty, a
4-digit year passes through, a 2-digit year maps through the 50 pivot
(values below 50 to `20YY`, values from 50 to `19YY`), any other year
length yields null, and every successful parse is the zero-padded
`YYYY-MM-DD` built from the same digit-stripped day, month and year. -/
theorem convert_date_three_parts (s d m y : List Char)
    (hsplit : splitOnDot s = [d, m, y])
    (hd : digitsOnly d ≠ []) (hm : digitsOnly m ≠ []) (hy : digitsOnly y ≠ []) :
    ((digitsOnly y).length = 4 →
      convert_date s = some (digitsOnly y ++
        '-' :: (zfillL 2 (digitsOnly m) ++ '-' :: zfillL 2 (digitsOnly d)))) ∧
    ((digitsOnly y).length = 2 → natOfDigits (digitsOnly y) < 50 →
      convert_date s = some ('2' :: '0' :: digitsOnly y ++
        '-' :: (zfillL 2 (digitsOnly m) ++ '-' :: zfillL 2 (digitsOnly d)))) ∧
    ((digitsOnly y).length = 2 → 50 ≤ natOfDigits (digitsOnly y) →
      convert_date s = some ('1' :: '9' :: digitsOnly y ++
        '-' :: (zfillL 2 (digitsOnly m) ++ '-' :: zfillL 2 (digitsOnly d)))) ∧
    ((digitsOnly y).length ≠ 2 → (digitsOnly y).length ≠ 4 →
      convert_date s = none) := by
  obtain ⟨dig, hdigm, hdig⟩ : ∃ x ∈ m, x.isDigit = true := by
    by_contra hno
    push_neg at hno
    exact hm (List.filter_eq_nil_iff.mpr (by simpa using hno))
  have hsplit' := splitOnDot_pyStrip_three hsplit
  have hm_mem : m ∈ splitOnDot (pyStripL s) := by
    rw [hsplit']
    simp
  have hdigs : dig ∈ pyStripL s := mem_of_mem_splitOnDot hm_mem hdigm
  have hguard := guard_false_of_digit_mem hdig hdigs
  have hcd : convert_date s
      = formatYMD (digitsOnly d) (digitsOnly m) (digitsOnly y) := by
    unfold convert_date
    rw [if_neg hguard, hsplit']
    show formatYMD (digitsOnly (d.dropWhile pyIsSpace)) (digitsOnly m)
      (digitsOnly (stripEnd pyIsSpace y)) = _
    rw [digitsOnly_dropWhile_pyIsSpace, digitsOnly_stripEnd]
  have hne : ¬(digitsOnly d = [] ∨ digitsOnly m = [] ∨ digitsOnly y = []) := by
    simp [hd, hm, hy]
  refine ⟨?_, ?_, ?_, ?_⟩
  · intro h4
    rw [hcd]
    unfold formatYMD
    rw [if_neg hne, if_neg (by omega), if_pos h4, zfillL_eq_self (by omega)]
  · intro h2 h50
    rw [hcd]
    unfold formatYMD
    rw [if_neg hne, if_pos h2, if_pos h50,
      zfillL_eq_self (by simp [List.length_cons, h2])]
  · intro h2 h50
    rw [hcd]
    unfold formatYMD
    rw [if_neg hne, if_pos h2, if_neg (by omega),
      zfillL_eq_self (by simp [List.length_cons, h2])]
  · intro hn2 hn4
    rw [hcd]
    unfold formatYMD
    rw [if_neg hne, if_neg hn2, if_neg hn4]

/-- Witness for `convert_date_three_parts` on `5.6.2021`. -/
theorem convert_date_three_parts_witness :
    convert_date "5.6.2021".data = some "2021-06-05".data :=
  (convert_date_three_parts "5.6.2021".data ['5'] ['6'] "2021".data
    (by decide) (by decide) (by decide) (by decide)).1 (by decide)

/-! ### Claim C10: unparseable dates fall through non-null -/

/-- C10 counterexample: on the non-empty, non-placeholder, dot-free input
`" x "` the cleaner returns the stripped string `"x"`, not the input
unchanged. -/
theorem convert_date_unchanged_cex :
    convert_date " x ".data = some "x".data ∧
    convert_date " x ".data ≠ some " x ".data :=
  ⟨by decide, by decide⟩

/-- C10 as amended: an input that (after stripping) is non-empty, is not a
`nan`/`none` placeholder, and does not split on `.` into exactly three
parts is returned stripped of surrounding whitespace — in particular
unchanged whenever it carries no surrounding whitespace — and never null,
so a row carrying such an unparseable date has a non-null `reading_date`
and passes the row validator's date condition. -/
theorem convert_date_fallthrough (s : List Char)
    (hne : pyStripL s ≠ [])
    (hnan : lowerL (pyStripL s) ≠ "nan".data)
    (hnone : lowerL (pyStripL s) ≠ "none".data)
    (hlen : (splitOnDot s).length ≠ 3) :
    convert_date s = some (pyStripL s) ∧
    (convert_date s).isSome = true ∧
    ∀ r : RawRecord, r.reading_date = s →
      (cleanFields r).reading_date.isSome = true := by
  have h1 : convert_date s
      = convertParts (splitOnDot (pyStripL s)) (pyStripL s) := by
    unfold convert_date
    rw [if_neg (by simp [hne, hnan, hnone])]
  have hlen' : (splitOnDot (pyStripL s)).length ≠ 3 := by
    rw [splitOnDot_pyStrip_length]
    exact hlen
  have h2 : convert_date s = some (pyStripL s) :=
    h1.trans (convertParts_not_three _ _ hlen')
  refine ⟨h2, by simp [h2], ?_⟩
  intro r hr
  show (convert_date r.reading_date).isSome = true
  rw [hr]
  simp [h2]

/-- Witness for `convert_date_fallthrough` on the dot-free input `abc`. -/
theorem convert_date_fallthrough_witness :
    convert_date "abc".data = some "abc".data :=
  (convert_date_fallthrough "abc".data (by decide) (by decide) (by decide)
    (by decide)).1

/-! ### Claim C8: idempotence of normalization -/

/-- Second-run stability of the full pipeline: writing the cleaned rows
back to text and cleaning again reproduces them, provided the text fields
were already clean and the consumption rendering re-parses to the parsed
value. -/
theorem normalize_idempotent_on_clean (renderQ : ℚ → List Char)
    (rs : List RawRecord)
    (hrender : ∀ c ∈ normalizeRows rs, ∀ q : ℚ, c.consumption = some q →
      clean_consumption_simple (renderQ q) = some q)
    (htext : ∀ r ∈ rs, cleanText r.city = r.city ∧
      cleanText r.account_number = r.account_number ∧
      cleanText r.reading_method = r.reading_method) :
    normalizeRows ((normalizeRows rs).map (writeBack renderQ))
      = normalizeRows rs := by
  have hfix : ∀ c ∈ normalizeRows rs, cleanFields (writeBack renderQ c) = c := by
    intro c hc
    obtain ⟨hmem, hmask⟩ := List.mem_filter.mp hc
    obtain ⟨r, hr, rfl⟩ := List.mem_map.mp hmem
    obtain ⟨ht1, ht2, ht3⟩ := htext r hr
    show CleanRecord.mk (cleanText (cleanText r.city))
        (cleanText (cleanText r.account_number))
        (digitsOnly (digitsOnly r.meter_number))
        (convert_date ((convert_date r.reading_date).getD []))
        (clean_consumption_simple
          (((clean_consumption_simple r.consumption).map renderQ).getD []))
        (cleanText (cleanText r.reading_method))
      = CleanRecord.mk (cleanText r.city) (cleanText r.account_number)
        (digitsOnly r.meter_number) (convert_date r.reading_date)
        (clean_consumption_simple r.consumption)
        (cleanText r.reading_method)
    simp only [CleanRecord.mk.injEq]
    refine ⟨?_, ?_, ?_, ?_, ?_, ?_⟩
    · show cleanText (cleanText r.city) = cleanText r.city
      rw [ht1]
      exact ht1
    · show cleanText (cleanText r.account_number) = cleanText r.account_number
      rw [ht2]
      exact ht2
    · exact digitsOnly_idem r.meter_number
    · show convert_date ((convert_date r.reading_date).getD [])
        = convert_date r.reading_date
      cases hdate : convert_date r.reading_date with
      | none => exact convert_date_nil_eq
      | some d => exact convert_date_idem r.reading_date d hdate
    · show clean_consumption_simple
          (((clean_consumption_simple r.consumption).map renderQ).getD [])
        = clean_consumption_simple r.consumption
      cases hcons : clean_consumption_simple r.consumption with
      | none => exact clean_consumption_nil_eq
      | some q =>
        simp only [Option.map_some', Option.getD_some]
        exact hrender (cleanFields r) hc q (by
          show clean_consumption_simple r.consumption = some q
          exact hcons)
    · show cleanText (cleanText r.reading_method) = cleanText r.reading_method
      rw [ht3]
      exact ht3
  show (((normalizeRows rs).map (writeBack renderQ)).map cleanFields).filter
      rowMask = normalizeRows rs
  rw [List.map_map,
    map_eq_self_of (f := cleanFields ∘ writeBack renderQ)
      (fun c hc => hfix c hc)]
  exact List.filter_eq_self.mpr (fun c hc => (List.mem_filter.mp hc).2)

/-- Concrete rendering used by the C8 witness and counterexample: every
parsed value is written back as the digit string `5` (adequate because the
only parsed value in those records is 5). -/
def renderFive : ℚ → List Char := fun _ => ['5']

/-- Record with an ISO date and numeric consumption whose account field
`" a"` (quote, space, a, quote) is not yet clean. -/
def rQuoteAcc : RawRecord where
  city := "C".data
  account_number := ['\"', ' ', 'a', '\"']
  meter_number := "1".data
  reading_date := "2022-01-01".data
  consumption := "5".data
  reading_method := "m".data

/-- C8 counterexample: on a record set with ISO dates and numeric
consumption whose account field still carries a quoted space, the second
normalization run differs from the first — the first run leaves the
account as `" a"` (leading space exposed by quote removal) and the second
strips it to `"a"` — so the claimed idempotence on such sets fails. -/
theorem normalization_idempotence_cex :
    normalizeRows ((normalizeRows [rQuoteAcc]).map (writeBack renderFive))
      ≠ normalizeRows [rQuoteAcc] := by decide

/-- C8 as amended: (1) every output of the date cleaner is a fixed point
of the date cleaner, (2) a dash-containing digit/dash string — in
particular an already-ISO `YYYY-MM-DD` date — is returned unchanged, and
(3) running the normalization a second time on the written-back output
reproduces the first run's output exactly, provided the record set's text
fields were already clean (fixed points of the text cleaner, which the
counterexample shows is necessary) and the numeric rendering of each
parsed consumption value re-parses to that value. -/
theorem normalization_idempotence :
    (∀ s r : List Char, convert_date s = some r → convert_date r = some r) ∧
    (∀ s : List Char, (∀ c ∈ s, c.isDigit = true ∨ c = '-') → '-' ∈ s →
      convert_date s = some s) ∧
    (∀ (renderQ : ℚ → List Char) (rs : List RawRecord),
      (∀ c ∈ normalizeRows rs, ∀ q : ℚ, c.consumption = some q →
        clean_consumption_simple (renderQ q) = some q) →
      (∀ r ∈ rs, cleanText r.city = r.city ∧
        cleanText r.account_number = r.account_number ∧
        cleanText r.reading_method = r.reading_method) →
      normalizeRows ((normalizeRows rs).map (writeBack renderQ))
        = normalizeRows rs) :=
  ⟨convert_date_idem,
   fun _ hok hdash => convert_date_fixed_of_digit_dash hok hdash,
   normalize_idempotent_on_clean⟩

/-- Fully clean record used by the C8 witness. -/
def rCleanRec : RawRecord where
  city := "C".data
  account_number := "a".data
  meter_number := "1".data
  reading_date := "2022-01-01".data
  consumption := "5".data
  reading_method := "m".data

/-- Witness for `normalization_idempotence`: the ISO date is a fixed point
and a second run on the clean record reproduces the first. -/
theorem normalization_idempotence_witness :
    convert_date "2022-01-01".data = some "2022-01-01".data ∧
    normalizeRows ((normalizeRows [rCleanRec]).map (writeBack renderFive))
      = normalizeRows [rCleanRec] := by
  constructor
  · exact normalization_idempotence.2.1 "2022-01-01".data (by decide)
      (by decide)
  · refine normalization_idempotence.2.2 renderFive [rCleanRec] ?_ ?_
    · intro c hc q hq
      have heq : normalizeRows [rCleanRec] = [cleanFields rCleanRec] := rfl
      rw [heq] at hc
      have hc' : c = cleanFields rCleanRec := by simpa using hc
      subst hc'
      exact hq
    · intro r hr
      have hr' : r = rCleanRec := by simpa using hr
      subst hr'
      exact ⟨by decide, by decide, by decide⟩
